import Mathlib

/-!
Verification of the sandbox execution pipeline of `smollm-sandbox`.

This file gives a shallow embedding, in Lean, of the code-execution core of
the repository: the `Compiler` (internal/sandbox/compiler.go), the `Executor`
(executor.go: `ExecuteFile`, `ExecuteCode`, `copyFile`) and the `Environment`
(environment.go: `compile`, `SetResourceLimits`, timeout table).

External processes (compilers, interpreters, the user program) are modelled by
oracle records describing how the launched process behaved (its exit outcome,
what it wrote to stdout/stderr, how long it took, whether the race with the
timeout timer was won by the timer).  The embedded functions translate, branch
for branch, what the Go code does with those outcomes.  The filesystem is
modelled as an association list from paths to file contents; machine side
effects that the claims talk about (launching a compiler, launching the user
process, sending a kill signal to a pid) are returned as an explicit event
trace.
-/

namespace SmolLM

/-! ### Constants (environment.go) -/

/-- `TIMEOUT_SECONDS = 30` from environment.go. -/
def TIMEOUT_SECONDS : Nat := 30

/-- `MAX_OUTPUT_SIZE = 1024 * 1024` (1 MiB) from environment.go. -/
def MAX_OUTPUT_SIZE : Nat := 1024 * 1024

/-- `WORK_DIR = "/tmp/smollm-sandbox"` from environment.go. -/
def WORK_DIR : String := "/tmp/smollm-sandbox"

/-! ### Models of the Go standard-library string functions used by the code -/

/-- Walk the reversed character list of a path; mirror of the loop in Go
`filepath.Ext`: scan backwards, stop at a path separator, return the suffix
from the last dot.  `acc` holds the characters already passed (in original
order). -/
def goExtRevAux : List Char → List Char → List Char
  | [], _ => []
  | c :: rest, acc =>
    if c = '/' then []
    else if c = '.' then c :: acc
    else goExtRevAux rest (c :: acc)

/-- Model of Go `filepath.Ext`: the suffix beginning at the final dot in the
final slash-separated element of the path; empty if there is no dot. -/
def goExt (p : String) : String :=
  String.mk (goExtRevAux p.data.reverse [])

/-- Model of Go `filepath.Base`: strip trailing slashes, then keep the last
slash-separated element; `""` gives `"."`, an all-slash path gives `"/"`. -/
def goBase (p : String) : String :=
  if p.data = [] then "."
  else
    let t := p.data.reverse.dropWhile (fun c => c = '/')
    if t = [] then "/"
    else String.mk ((t.takeWhile (fun c => ¬ c = '/')).reverse)

/-- Model of Go `strings.TrimSuffix`: drop `suf` from the end of `s` when it
is a suffix, otherwise return `s` unchanged. -/
def trimSuffix (s suf : String) : String :=
  if s.data.drop (s.data.length - suf.data.length) = suf.data ∧
      suf.data.length ≤ s.data.length then
    String.mk (s.data.take (s.data.length - suf.data.length))
  else s

/-! ### Filesystem model

An association list from absolute paths to file contents.  Only the source
files staged by the pipeline are modelled; compiled artifacts are tracked by
the compile oracle instead. -/

/-- Paths mapped to contents. -/
def FS := List (String × String)

instance : DecidableEq FS := by
  unfold FS
  infer_instance

/-- Read a file. -/
def fsGet (fs : FS) (p : String) : Option String :=
  List.lookup p fs

/-- Create or overwrite a file (model of `os.WriteFile` / `os.Create`). -/
def fsSet (fs : FS) (p : String) (content : String) : FS :=
  (p, content) :: List.filter (fun e => ¬ e.1 = p) fs

/-- Delete a file (model of `os.Remove`). -/
def fsErase (fs : FS) (p : String) : FS :=
  List.filter (fun e => ¬ e.1 = p) fs

/-- Model of `copyFile` (executor.go): open `src`, then `os.Create dst`
truncates `dst` to length zero before `io.Copy` reads from the already-open
`src` descriptor.  When `src` and `dst` are the same path the truncation
empties the very inode the copy then reads, so the copied data is empty;
otherwise the full content of `src` is copied.  (`os.Chmod dst 0755` has no
bearing on contents.) -/
def copyFile (fs : FS) (src dst : String) : Except String FS :=
  match fsGet fs src with
  | none => Except.error "no such file or directory"
  | some data => Except.ok (fsSet fs dst (if src = dst then "" else data))

/-! ### Compiler (internal/sandbox/compiler.go) -/

/-- `CompilerConfig` from environment.go. -/
structure CompilerConfig where
  Command : String
  Args : List String
  OutputFlag : String
  ErrorCodes : List (Int × String)
  NeedsCompiled : Bool
deriving DecidableEq

/-- The fixed per-extension table built by `NewCompiler`. -/
def compilerConfigs : List (String × CompilerConfig) :=
  [ (".py", ⟨"python3", ["-m", "py_compile"], "", [(1, "Синтаксическая ошибка Python")], false⟩),
    (".js", ⟨"node", ["--check"], "", [(1, "Синтаксическая ошибка JavaScript")], false⟩),
    (".go", ⟨"go", ["build"], "-o", [(1, "Ошибка компиляции Go")], true⟩),
    (".c", ⟨"gcc", ["-Wall", "-O2"], "-o", [(1, "Ошибка компиляции C")], true⟩),
    (".cpp", ⟨"g++", ["-Wall", "-O2", "-std=c++17"], "-o", [(1, "Ошибка компиляции C++")], true⟩),
    (".sh", ⟨"bash", ["-n"], "", [(1, "Синтаксическая ошибка Bash")], false⟩) ]

/-- `CompileResult` from compiler.go. -/
structure CompileResult where
  Success : Bool
  OutputFile : String
  Error : String
  CompileTime : Nat
deriving DecidableEq

/-- Outcome of a `cmd.Run()` / `cmd.Wait()` call in Go: `ok` is a nil error
(exit status 0); `exitErr` is an `*exec.ExitError` carrying `ExitCode()`
(never 0 for a started process: a non-zero exit status, or `-1` when killed by
a signal); `otherErr` is any other error (the command could not be started or
an I/O error occurred). -/
inductive CmdOutcome where
  | ok
  | exitErr (code : Int)
  | otherErr (msg : String)
deriving DecidableEq

/-- Oracle describing how one compiler invocation behaved: its exit outcome,
its stderr text, its wall-clock duration in seconds, and whether the expected
output artifact existed on disk afterwards. -/
structure CompileEnv where
  outcome : CmdOutcome
  stderr : String
  compileTime : Nat
  artifactExists : Bool
deriving DecidableEq

/-- Machine effects of one `Compiler.Compile` call: whether a compiler process
run was attempted, which path (if any) was `os.Chmod`-ed to `0755`, and the
pids sent kill signals.  (`Compiler.Compile` contains no kill call, so its
kill list is empty by construction — mirrored from the source, which runs the
compiler with a bare `cmd.Run()`.) -/
structure CompileEffects where
  launched : Bool
  chmodded : Option String
  kills : List Int
deriving DecidableEq

/-- ASCII case folding of one character, as Go `strings.ToLower` acts on the
ASCII range (the only characters occurring in extensions and language
names). -/
def asciiLower (c : Char) : Char :=
  if 'A' ≤ c ∧ c ≤ 'Z' then Char.ofNat (c.toNat + 32) else c

/-- Model of Go `strings.ToLower` restricted to its ASCII behaviour. -/
def strToLower (s : String) : String := String.mk (s.data.map asciiLower)

/-- The extension under which both `Compiler.Compile` and
`Executor.ExecuteFile` resolve a path:
`strings.ToLower(filepath.Ext(path))`. -/
def execExt (p : String) : String := strToLower (goExt p)

/-- The output file name computed by `Compiler.Compile`:
`strings.TrimSuffix(sourcePath, ext)` plus `".out"` for C/C++. -/
def compileOutputFile (sourcePath ext : String) : String :=
  let base := trimSuffix sourcePath ext
  if ext = ".c" ∨ ext = ".cpp" then base ++ ".out" else base

/-- Shallow embedding of `Compiler.Compile` (compiler.go, lines 102–206).
Returns the Go pair `(*CompileResult, error)` as an `Except`, together with
the machine effects. -/
def Compiler.Compile (sourcePath : String) (env : CompileEnv) :
    Except String CompileResult × CompileEffects :=
  let ext := execExt sourcePath
  match List.lookup ext compilerConfigs with
  | none =>
      (Except.error ("неподдерживаемый тип файла: " ++ ext), ⟨false, none, []⟩)
  | some config =>
      let outputFile := compileOutputFile sourcePath ext
      match env.outcome with
      | CmdOutcome.exitErr code =>
          let errorMsg :=
            match List.lookup code config.ErrorCodes with
            | some customMsg => customMsg ++ ": " ++ env.stderr
            | none => env.stderr
          (Except.ok ⟨false, "", errorMsg, env.compileTime⟩, ⟨true, none, []⟩)
      | CmdOutcome.otherErr m =>
          (Except.ok ⟨false, "", "ошибка запуска компилятора: " ++ m, env.compileTime⟩,
            ⟨true, none, []⟩)
      | CmdOutcome.ok =>
          if config.NeedsCompiled then
            if env.artifactExists then
              (Except.ok ⟨true, outputFile, "", env.compileTime⟩,
                ⟨true, some outputFile, []⟩)
            else
              (Except.ok ⟨false, "", "компиляция не создала выходной файл", env.compileTime⟩,
                ⟨true, none, []⟩)
          else
            (Except.ok ⟨true, outputFile, "", env.compileTime⟩, ⟨true, none, []⟩)

/-! ### Executor (executor.go) -/

/-- `ExecuteResult` from executor.go.  Durations are in seconds. -/
structure ExecuteResult where
  Success : Bool
  Output : String
  Error : String
  ExitCode : Int
  ExecuteTime : Nat
  CompileTime : Nat
  Compiled : Bool
  Language : String
deriving DecidableEq

/-- Observable machine events of one execution request, in the order the Go
code performs them: launching the compiler process, launching the user
process, and `syscall.Kill pid SIGKILL` (a negative `pid` kills the whole
process group, as in Go). -/
inductive SandboxEvent where
  | compileLaunch
  | userLaunch
  | kill (pid : Int)
deriving DecidableEq

/-- Which side of the `select` in `ExecuteFile` resolved first: the timeout
context, or `cmd.Wait()` returning with outcome `r`. -/
inductive RaceOutcome where
  | timedOut
  | done (r : CmdOutcome)
deriving DecidableEq

/-- Oracle describing how the run phase behaved: whether `cmd.Start()` failed,
the pid of the started process group leader, which side won the
wait-vs-timeout race, the captured stdout/stderr buffer contents, and the
measured wall-clock duration in seconds. -/
structure RunEnv where
  startErr : Option String
  pid : Int
  race : RaceOutcome
  stdout : String
  stderr : String
  executeTime : Nat
deriving DecidableEq

/-- Oracle for one full `ExecuteFile` request: the compile-phase behaviour and
the run-phase behaviour. -/
structure ExecOracle where
  compile : CompileEnv
  run : RunEnv
deriving DecidableEq

deriving instance DecidableEq for Except

/-- Everything one `ExecuteFile` call produces: the Go pair
`(*ExecuteResult, error)` as an `Except`, the filesystem after the staging
copy, the event trace, and the path handed to the run command when one was
constructed (`executablePath` in the source; `none` when the request ended
before the `switch` that builds the command). -/
structure ExecOutcome where
  result : Except String ExecuteResult
  fs : FS
  events : List SandboxEvent
  ranPath : Option String
deriving DecidableEq

/-- The per-extension timeout table built by `NewExecutor` (executor.go):
double budget for the compiled languages. -/
def executorTimeouts : List (String × Nat) :=
  [ (".py", TIMEOUT_SECONDS), (".js", TIMEOUT_SECONDS), (".go", TIMEOUT_SECONDS * 2),
    (".c", TIMEOUT_SECONDS * 2), (".cpp", TIMEOUT_SECONDS * 2), (".sh", TIMEOUT_SECONDS) ]

/-- The `switch ext` in `ExecuteFile` that builds the run command:
interpreters for `.py`/`.js`/`.sh`, the compiled binary itself for
`.c`/`.cpp`/`.go`, and no command (the unsupported-type error) otherwise. -/
def interpCmd (ext executablePath : String) : Option (String × List String) :=
  if ext = ".py" then some ("python3", [executablePath])
  else if ext = ".js" then some ("node", [executablePath])
  else if ext = ".sh" then some ("bash", [executablePath])
  else if ext = ".c" ∨ ext = ".cpp" ∨ ext = ".go" then some (executablePath, [])
  else none

/-- The final `executeErr` of `ExecuteFile` as a Go value: either an
`*exec.ExitError` (whose code the result extraction reads) or any other
non-nil error (timeout message, non-exit error, output-size message). -/
inductive ExecErr where
  | exitError (code : Int)
  | plainError (msg : String)
deriving DecidableEq

/-- The compile phase of `ExecuteFile` (lines 93–111): for `.c`/`.cpp`/`.go`
run `Compiler.Compile` on the staged file; a hard compiler error aborts the
request, an unsuccessful compile short-circuits with a result carrying the
compiler diagnostic, zero run time and `Compiled = true`; otherwise the
compiled binary becomes the executable path.  For other extensions the staged
file itself is the executable path. -/
def compileStep (ext tempFile : String) (fs1 : FS) (cenv : CompileEnv) :
    Except ExecOutcome (String × Option CompileResult × List SandboxEvent) :=
  if ext = ".c" ∨ ext = ".cpp" ∨ ext = ".go" then
    match Compiler.Compile tempFile cenv with
    | (Except.error m, eff) =>
        Except.error ⟨Except.error ("ошибка компиляции: " ++ m), fs1,
          if eff.launched then [SandboxEvent.compileLaunch] else [], none⟩
    | (Except.ok cr, _eff) =>
        if cr.Success then
          Except.ok (cr.OutputFile, some cr, [SandboxEvent.compileLaunch])
        else
          Except.error ⟨Except.ok ⟨false, "", cr.Error, 0, 0, cr.CompileTime, true, ext⟩,
            fs1, [SandboxEvent.compileLaunch], none⟩
  else Except.ok (tempFile, none, [])

/-- The run phase of `ExecuteFile` (lines 113–215): look up the per-extension
timeout, build the command, start it, race `cmd.Wait()` against the timeout
context (on timeout `syscall.Kill (-pid) SIGKILL` and a timeout message), then
re-check the captured stdout size (a size overflow replaces `executeErr` with
a plain size error), and assemble the result: `Success` iff `executeErr` is
nil, `ExitCode` only from an `*exec.ExitError`, stdout/stderr verbatim. -/
def runStep (ext executablePath : String) (fs1 : FS) (creOpt : Option CompileResult)
    (ev0 : List SandboxEvent) (r : RunEnv) : ExecOutcome :=
  let timeout := (List.lookup ext executorTimeouts).getD TIMEOUT_SECONDS
  match interpCmd ext executablePath with
  | none => ⟨Except.error ("неподдерживаемый тип файла: " ++ ext), fs1, ev0, none⟩
  | some _cmd =>
    match r.startErr with
    | some m => ⟨Except.error ("ошибка запуска процесса: " ++ m), fs1, ev0,
        some executablePath⟩
    | none =>
      let raceStep : Option ExecErr × List SandboxEvent :=
        match r.race with
        | RaceOutcome.timedOut =>
            (some (ExecErr.plainError
              ("превышено время выполнения (" ++ Nat.repr timeout ++ " секунд)")),
             ev0 ++ [SandboxEvent.userLaunch, SandboxEvent.kill (-r.pid)])
        | RaceOutcome.done CmdOutcome.ok => (none, ev0 ++ [SandboxEvent.userLaunch])
        | RaceOutcome.done (CmdOutcome.exitErr c) =>
            (some (ExecErr.exitError c), ev0 ++ [SandboxEvent.userLaunch])
        | RaceOutcome.done (CmdOutcome.otherErr m) =>
            (some (ExecErr.plainError m), ev0 ++ [SandboxEvent.userLaunch])
      let execErr :=
        if r.stdout.length > MAX_OUTPUT_SIZE then
          some (ExecErr.plainError
            ("превышен максимальный размер вывода (" ++ Nat.repr MAX_OUTPUT_SIZE ++ " байт)"))
        else raceStep.1
      let success := execErr.isNone
      let exitCode : Int :=
        match execErr with
        | some (ExecErr.exitError c) => c
        | _ => 0
      ⟨Except.ok ⟨success, r.stdout, r.stderr, exitCode, r.executeTime,
          (creOpt.map (fun cr => cr.CompileTime)).getD 0, creOpt.isSome, ext⟩,
        fs1, raceStep.2, some executablePath⟩

/-- Shallow embedding of `Executor.ExecuteFile` (executor.go, lines 68–216):
existence check, lower-cased extension, staging copy into the working
directory (`copyFile`, which truncates when source and destination coincide),
compile phase, run phase. -/
def Executor.ExecuteFile (workDir filePath : String) (fs : FS) (o : ExecOracle) :
    ExecOutcome :=
  if (fsGet fs filePath).isNone then
    ⟨Except.error ("файл не существует: " ++ filePath), fs, [], none⟩
  else
    let ext := execExt filePath
    let tempFile := workDir ++ "/" ++ goBase filePath
    match copyFile fs filePath tempFile with
    | Except.error m =>
        ⟨Except.error ("ошибка копирования файла: " ++ m), fs, [], none⟩
    | Except.ok fs1 =>
        match compileStep ext tempFile fs1 o.compile with
        | Except.error out => out
        | Except.ok (executablePath, creOpt, ev0) =>
            runStep ext executablePath fs1 creOpt ev0 o.run

/-- The language-name switch at the top of `Executor.ExecuteCode`
(executor.go, lines 244–261). -/
def extForLanguage (language : String) : Option String :=
  let l := strToLower language
  if l = "python" then some ".py"
  else if l = "javascript" ∨ l = "js" then some ".js"
  else if l = "go" ∨ l = "golang" then some ".go"
  else if l = "c" then some ".c"
  else if l = "cpp" ∨ l = "c++" then some ".cpp"
  else if l = "bash" ∨ l = "sh" then some ".sh"
  else none

/-- The temporary file name synthesized by `ExecuteCode`:
`fmt.Sprintf("tmp_%d%s", timestamp, ext)`. -/
def tmpFileName (timestamp : Nat) (ext : String) : String :=
  "tmp_" ++ Nat.repr timestamp ++ ext

/-- Shallow embedding of `Executor.ExecuteCode` (executor.go, lines 243–280):
map the language name to an extension, write the code to a uniquely named
temporary file in the working directory, delegate to `ExecuteFile`, and
`os.Remove` the temporary file unconditionally before returning. -/
def Executor.ExecuteCode (workDir code language : String) (timestamp : Nat)
    (fs : FS) (o : ExecOracle) : Except String ExecuteResult × FS :=
  match extForLanguage language with
  | none => (Except.error ("неподдерживаемый язык: " ++ language), fs)
  | some ext =>
    let fileName := tmpFileName timestamp ext
    let filePath := workDir ++ "/" ++ fileName
    let fs1 := fsSet fs filePath code
    let out := Executor.ExecuteFile workDir filePath fs1 o
    (out.result, fsErase out.fs filePath)

/-! ### Environment (environment.go) -/

/-- Model of Go `strings.HasSuffix`. -/
def goHasSuffix (s suf : String) : Bool :=
  if suf.data.length ≤ s.data.length ∧
      s.data.drop (s.data.length - suf.data.length) = suf.data then true else false

/-- The per-extension timeout table built by `NewEnvironment`
(environment.go): no `.sh` entry, double budget for compiled languages. -/
def newEnvironmentTimeouts : List (String × Nat) :=
  [ (".py", TIMEOUT_SECONDS), (".js", TIMEOUT_SECONDS), (".go", TIMEOUT_SECONDS * 2),
    (".c", TIMEOUT_SECONDS * 2), (".cpp", TIMEOUT_SECONDS * 2) ]

/-- Shallow embedding of `Environment.SetResourceLimits` (environment.go,
lines 439–450): overwrite every entry of the environment's timeout map with
`timeoutSeconds`; the CPU and memory arguments are only logged. -/
def Environment.SetResourceLimits (timeouts : List (String × Nat))
    (_cpuPercent _memoryMB timeoutSeconds : Nat) : List (String × Nat) :=
  timeouts.map (fun p => (p.1, timeoutSeconds))

/-- Shallow embedding of `Environment.compile` (environment.go, lines
165–237).  `timeouts` is the environment's timeout map, `race` says whether
`cmd.Run()` finished before the `time.After` timer.  The timeout branch calls
`cmd.Process.Kill()` — a kill of the single compiler pid — and reports a
compile-timeout error; note the timeout lookup uses the raw (not lower-cased)
extension. -/
def Environment.compile (timeouts : List (String × Nat)) (filename : String)
    (config : CompilerConfig) (pid : Int) (race : RaceOutcome) (stderrText : String) :
    Except String String × List SandboxEvent :=
  let ext := goExt filename
  let outputFile0 := trimSuffix filename ext
  let outputFile :=
    if goHasSuffix filename ".c" ∨ goHasSuffix filename ".cpp" then outputFile0 ++ ".out"
    else outputFile0
  let timeout := (List.lookup ext timeouts).getD TIMEOUT_SECONDS
  match race with
  | RaceOutcome.done CmdOutcome.ok => (Except.ok outputFile, [SandboxEvent.compileLaunch])
  | RaceOutcome.done (CmdOutcome.exitErr code) =>
      match List.lookup code config.ErrorCodes with
      | some errorMsg =>
          (Except.error (errorMsg ++ " (код " ++ toString code ++ "): " ++ stderrText),
            [SandboxEvent.compileLaunch])
      | none =>
          (Except.error ("ошибка компиляции (код " ++ toString code ++ "): " ++ stderrText),
            [SandboxEvent.compileLaunch])
  | RaceOutcome.done (CmdOutcome.otherErr m) =>
      (Except.error ("ошибка запуска компилятора: " ++ m), [SandboxEvent.compileLaunch])
  | RaceOutcome.timedOut =>
      (Except.error ("превышено время компиляции (" ++ Nat.repr timeout ++ " секунд)"),
        [SandboxEvent.compileLaunch, SandboxEvent.kill pid])

/-! ### Injectivity of decimal rendering

`ExecuteCode` builds its temporary file name with `fmt.Sprintf("tmp_%d%s",
timestamp, ext)`; the uniqueness of that name for distinct timestamps reduces
to injectivity of `Nat.repr`, proved here by a parse/print round trip. -/

/-- The decimal digit characters of `n`, most significant first; this is what
`Nat.toDigitsCore` computes once its fuel suffices. -/
def decDigits (n : Nat) : List Char :=
  if _h : n < 10 then [Nat.digitChar n]
  else decDigits (n / 10) ++ [Nat.digitChar (n % 10)]
decreasing_by exact Nat.div_lt_self (by omega) (by omega)

/-- Numeric value of a decimal digit character. -/
def decVal (c : Char) : Nat := c.toNat - 48

/-- Fold a digit list back into a number. -/
def parseAux (a : Nat) : List Char → Nat
  | [] => a
  | c :: cs => parseAux (a * 10 + decVal c) cs

set_option maxHeartbeats 1000000 in
theorem decVal_digitChar {d : Nat} (h : d < 10) : decVal (Nat.digitChar d) = d := by
  interval_cases d <;> decide

theorem parseAux_nil (a : Nat) : parseAux a [] = a := rfl

theorem parseAux_cons (a : Nat) (c : Char) (cs : List Char) :
    parseAux a (c :: cs) = parseAux (a * 10 + decVal c) cs := rfl

theorem parseAux_append (a : Nat) (l1 l2 : List Char) :
    parseAux a (l1 ++ l2) = parseAux (parseAux a l1) l2 := by
  induction l1 generalizing a with
  | nil => rfl
  | cons c cs ih => rw [List.cons_append, parseAux_cons, parseAux_cons, ih]

theorem parseAux_decDigits (n : Nat) :
    ∀ a : Nat, parseAux a (decDigits n) = a * 10 ^ (decDigits n).length + n := by
  induction n using decDigits.induct with
  | case1 n h =>
      intro a
      rw [decDigits]
      simp only [h, dite_true]
      rw [parseAux_cons, parseAux_nil, decVal_digitChar h]
      simp
  | case2 n h ih =>
      intro a
      rw [decDigits]
      simp only [h, dite_false]
      rw [parseAux_append, ih, parseAux_cons, parseAux_nil,
        decVal_digitChar (Nat.mod_lt n (by omega))]
      simp only [List.length_append, List.length_cons, List.length_nil]
      generalize (decDigits (n / 10)).length = k
      have h1 : a * 10 ^ (k + (0 + 1)) = a * 10 ^ k * 10 := by ring
      rw [h1]
      omega

theorem decDigits_injective {m n : Nat} (h : decDigits m = decDigits n) : m = n := by
  have hm := parseAux_decDigits m 0
  have hn := parseAux_decDigits n 0
  rw [h] at hm
  omega

theorem toDigitsCore_eq_decDigits :
    ∀ (f n : Nat) (ds : List Char), n < f →
      Nat.toDigitsCore 10 f n ds = decDigits n ++ ds := by
  intro f
  induction f with
  | zero => intro n ds h; omega
  | succ f ih =>
      intro n ds h
      rw [Nat.toDigitsCore]
      by_cases h0 : n / 10 = 0
      · have hn10 : n < 10 := by omega
        simp only [h0, if_true]
        rw [decDigits]
        simp [hn10, Nat.mod_eq_of_lt hn10]
      · have hge : ¬ n < 10 := by
          intro hc
          exact h0 (Nat.div_eq_of_lt hc)
        simp only [h0, if_false]
        have hlt : n / 10 < f := by
          have := Nat.div_lt_self (show 0 < n by omega) (show 1 < 10 by omega)
          omega
        rw [ih (n / 10) _ hlt]
        conv_rhs => rw [decDigits]
        simp [hge, List.append_assoc]

theorem natRepr_injective {m n : Nat} (h : Nat.repr m = Nat.repr n) : m = n := by
  apply decDigits_injective
  have hm : Nat.repr m = (decDigits m).asString := by
    unfold Nat.repr Nat.toDigits
    rw [toDigitsCore_eq_decDigits (m + 1) m [] (by omega)]
    simp
  have hn : Nat.repr n = (decDigits n).asString := by
    unfold Nat.repr Nat.toDigits
    rw [toDigitsCore_eq_decDigits (n + 1) n [] (by omega)]
    simp
  rw [hm, hn] at h
  simpa [List.asString] using congrArg String.data h

/-- For a fixed extension, distinct timestamps give distinct temporary file
names: the time-derived suffix makes the staged name request-unique. -/
theorem tmpFileName_inj {t1 t2 : Nat} {ext : String}
    (h : tmpFileName t1 ext = tmpFileName t2 ext) : t1 = t2 := by
  apply natRepr_injective
  apply String.ext
  have hd := congrArg String.data h
  simp only [tmpFileName, String.data_append, List.append_assoc] at hd
  exact List.append_cancel_right (List.append_cancel_left hd)

/-! ### Helper lemmas about the embedding -/

theorem fsGet_fsErase (fs : FS) (p : String) : fsGet (fsErase fs p) p = none := by
  induction fs with
  | nil => rfl
  | cons e tl ih =>
      by_cases h : e.1 = p
      · simpa [fsErase, List.filter, h] using ih
      · have h2 : ¬ p = e.1 := fun hh => h hh.symm
        have hb : (p == e.1) = false := by
          simpa using h2
        simpa [fsErase, List.filter, fsGet, List.lookup, h, hb] using ih

theorem lookup_map_const (tm : List (String × Nat)) (ext : String) (ts : Nat) :
    List.lookup ext (tm.map (fun p => (p.1, ts))) =
      (List.lookup ext tm).map (fun _ => ts) := by
  induction tm with
  | nil => rfl
  | cons p tl ih =>
      by_cases h : ext = p.1
      · have hb : (ext == p.1) = true := by simpa using h
        simp [List.lookup, hb]
      · have hb : (ext == p.1) = false := by simpa using h
        simp [List.lookup, hb, ih]

theorem executeFile_unfold (workDir filePath : String) (fs : FS) (o : ExecOracle)
    (d : String) (hd : fsGet fs filePath = some d) :
    Executor.ExecuteFile workDir filePath fs o =
      (match compileStep (execExt filePath) (workDir ++ "/" ++ goBase filePath)
          (fsSet fs (workDir ++ "/" ++ goBase filePath)
            (if filePath = workDir ++ "/" ++ goBase filePath then "" else d)) o.compile with
       | Except.error out => out
       | Except.ok (executablePath, creOpt, ev0) =>
           runStep (execExt filePath) executablePath
             (fsSet fs (workDir ++ "/" ++ goBase filePath)
               (if filePath = workDir ++ "/" ++ goBase filePath then "" else d))
             creOpt ev0 o.run) := by
  unfold Executor.ExecuteFile copyFile
  rw [hd]
  rfl

theorem compileStep_interp {ext : String} (tempFile : String) (fs1 : FS)
    (cenv : CompileEnv) (hne : ¬ (ext = ".c" ∨ ext = ".cpp" ∨ ext = ".go")) :
    compileStep ext tempFile fs1 cenv = Except.ok (tempFile, none, []) := by
  simp [compileStep, hne]

theorem executeFile_interp (workDir filePath : String) (fs : FS) (o : ExecOracle)
    (d : String) (hd : fsGet fs filePath = some d)
    (hne : ¬ (execExt filePath = ".c" ∨ execExt filePath = ".cpp" ∨
      execExt filePath = ".go")) :
    Executor.ExecuteFile workDir filePath fs o =
      runStep (execExt filePath) (workDir ++ "/" ++ goBase filePath)
        (fsSet fs (workDir ++ "/" ++ goBase filePath)
          (if filePath = workDir ++ "/" ++ goBase filePath then "" else d))
        none [] o.run := by
  rw [executeFile_unfold workDir filePath fs o d hd, compileStep_interp _ _ _ hne]

theorem compileStep_error_shape {ext tempFile : String} {fs1 : FS} {cenv : CompileEnv}
    {out : ExecOutcome} (h : compileStep ext tempFile fs1 cenv = Except.error out) :
    out.ranPath = none ∧
      (out.events = [] ∨ out.events = [SandboxEvent.compileLaunch]) := by
  unfold compileStep at h
  by_cases hc : ext = ".c" ∨ ext = ".cpp" ∨ ext = ".go"
  · simp only [hc, if_true] at h
    rcases hcc : Compiler.Compile tempFile cenv with ⟨res, eff⟩
    rw [hcc] at h
    rcases res with m | cr
    · simp only [Except.error.injEq] at h
      subst h
      by_cases hl : eff.launched = true <;> simp [hl]
    · by_cases hs : cr.Success = true
      · simp [hs] at h
      · simp only [hs, Bool.false_eq_true, if_false, Except.error.injEq] at h
        subst h
        simp
  · simp [hc] at h

theorem compileStep_ok_shape {ext tempFile : String} {fs1 : FS} {cenv : CompileEnv}
    {ep : String} {creOpt : Option CompileResult} {ev0 : List SandboxEvent}
    (h : compileStep ext tempFile fs1 cenv = Except.ok (ep, creOpt, ev0)) :
    ev0 = [] ∨ ev0 = [SandboxEvent.compileLaunch] := by
  unfold compileStep at h
  by_cases hc : ext = ".c" ∨ ext = ".cpp" ∨ ext = ".go"
  · simp only [hc, if_true] at h
    rcases hcc : Compiler.Compile tempFile cenv with ⟨res, eff⟩
    rw [hcc] at h
    rcases res with m | cr
    · simp at h
    · by_cases hs : cr.Success = true
      · simp only [hs, if_true, Except.ok.injEq, Prod.mk.injEq] at h
        right
        exact h.2.2.symm
      · simp [hs] at h
  · simp only [hc, if_false, Except.ok.injEq, Prod.mk.injEq] at h
    left
    exact h.2.2.symm

theorem runStep_none_interp {ext ep : String} {fs1 : FS} {cr : Option CompileResult}
    {ev0 : List SandboxEvent} {r : RunEnv} (h : interpCmd ext ep = none) :
    runStep ext ep fs1 cr ev0 r =
      ⟨Except.error ("неподдерживаемый тип файла: " ++ ext), fs1, ev0, none⟩ := by
  simp [runStep, h]

theorem runStep_startErr {ext ep : String} {fs1 : FS} {cr : Option CompileResult}
    {ev0 : List SandboxEvent} {r : RunEnv} {cmd : String × List String} {m : String}
    (hi : interpCmd ext ep = some cmd) (hs : r.startErr = some m) :
    runStep ext ep fs1 cr ev0 r =
      ⟨Except.error ("ошибка запуска процесса: " ++ m), fs1, ev0, some ep⟩ := by
  simp [runStep, hi, hs]

theorem runStep_timedOut {ext ep : String} {fs1 : FS} {cr : Option CompileResult}
    {ev0 : List SandboxEvent} {r : RunEnv} {cmd : String × List String}
    (hi : interpCmd ext ep = some cmd) (hs : r.startErr = none)
    (hr : r.race = RaceOutcome.timedOut) :
    runStep ext ep fs1 cr ev0 r =
      ⟨Except.ok ⟨false, r.stdout, r.stderr, 0, r.executeTime,
          (cr.map (fun c => c.CompileTime)).getD 0, cr.isSome, ext⟩,
        fs1, ev0 ++ [SandboxEvent.userLaunch, SandboxEvent.kill (-r.pid)], some ep⟩ := by
  simp only [runStep, hi, hs, hr]
  split <;> rfl

theorem runStep_exitErr {ext ep : String} {fs1 : FS} {cr : Option CompileResult}
    {ev0 : List SandboxEvent} {r : RunEnv} {cmd : String × List String} {c : Int}
    (hi : interpCmd ext ep = some cmd) (hs : r.startErr = none)
    (hr : r.race = RaceOutcome.done (CmdOutcome.exitErr c))
    (hsize : ¬ r.stdout.length > MAX_OUTPUT_SIZE) :
    runStep ext ep fs1 cr ev0 r =
      ⟨Except.ok ⟨false, r.stdout, r.stderr, c, r.executeTime,
          (cr.map (fun c => c.CompileTime)).getD 0, cr.isSome, ext⟩,
        fs1, ev0 ++ [SandboxEvent.userLaunch], some ep⟩ := by
  simp [runStep, hi, hs, hr, hsize]

theorem runStep_done_oversize {ext ep : String} {fs1 : FS} {cr : Option CompileResult}
    {ev0 : List SandboxEvent} {r : RunEnv} {cmd : String × List String} {rc : CmdOutcome}
    (hi : interpCmd ext ep = some cmd) (hs : r.startErr = none)
    (hr : r.race = RaceOutcome.done rc) (hsize : r.stdout.length > MAX_OUTPUT_SIZE) :
    runStep ext ep fs1 cr ev0 r =
      ⟨Except.ok ⟨false, r.stdout, r.stderr, 0, r.executeTime,
          (cr.map (fun c => c.CompileTime)).getD 0, cr.isSome, ext⟩,
        fs1, ev0 ++ [SandboxEvent.userLaunch], some ep⟩ := by
  rcases rc <;> simp [runStep, hi, hs, hr, hsize]

theorem runStep_ranPath_some {ext ep q : String} {fs1 : FS} {cr : Option CompileResult}
    {ev0 : List SandboxEvent} {r : RunEnv}
    (h : (runStep ext ep fs1 cr ev0 r).ranPath = some q) :
    q = ep ∧ (interpCmd ext ep).isSome := by
  unfold runStep at h
  rcases hi : interpCmd ext ep with _ | cmd
  · rw [hi] at h
    simp at h
  · rw [hi] at h
    rcases hs : r.startErr with _ | m
    · rw [hs] at h
      simp only [Option.some.injEq] at h
      exact ⟨h.symm, by simp [hi]⟩
    · rw [hs] at h
      simp only [Option.some.injEq] at h
      exact ⟨h.symm, by simp [hi]⟩

theorem runStep_done_events {ext ep : String} {fs1 : FS} {cr : Option CompileResult}
    {ev0 : List SandboxEvent} {r : RunEnv} {cmd : String × List String} {rc : CmdOutcome}
    (hi : interpCmd ext ep = some cmd) (hs : r.startErr = none)
    (hr : r.race = RaceOutcome.done rc) :
    (runStep ext ep fs1 cr ev0 r).events = ev0 ++ [SandboxEvent.userLaunch] := by
  by_cases hsize : r.stdout.length > MAX_OUTPUT_SIZE
  · rw [runStep_done_oversize hi hs hr hsize]
  · rcases rc with _ | c | m2
    · simp [runStep, hi, hs, hr, hsize]
    · rw [runStep_exitErr hi hs hr hsize]
    · simp [runStep, hi, hs, hr, hsize]

theorem runStep_events_append {ext ep : String} {fs1 : FS} {cr : Option CompileResult}
    {ev0 : List SandboxEvent} {r : RunEnv} :
    ∃ t, (runStep ext ep fs1 cr ev0 r).events = ev0 ++ t ∧
      (∀ p, SandboxEvent.kill p ∈ t →
        r.race = RaceOutcome.timedOut ∧ p = -r.pid) := by
  rcases hi : interpCmd ext ep with _ | cmd
  · rw [runStep_none_interp hi]
    exact ⟨[], by simp, by simp⟩
  · rcases hs : r.startErr with _ | m
    · rcases hr : r.race with _ | rc
      · rw [runStep_timedOut hi hs hr]
        refine ⟨[SandboxEvent.userLaunch, SandboxEvent.kill (-r.pid)], rfl, ?_⟩
        intro p hp
        simp only [List.mem_cons, List.mem_singleton] at hp
        rcases hp with hp | hp | hp
        · exact absurd hp (by simp)
        · exact ⟨hr ▸ rfl, by injection hp⟩
        · exact absurd hp (by simp at hp)
      · rw [runStep_done_events hi hs hr]
        refine ⟨[SandboxEvent.userLaunch], rfl, ?_⟩
        intro p hp
        simp at hp
    · rw [runStep_startErr hi hs]
      exact ⟨[], by simp, by simp⟩

theorem compileStep_ok_compiled {ext tempFile : String} {fs1 : FS} {cenv : CompileEnv}
    {ep : String} {creOpt : Option CompileResult} {ev0 : List SandboxEvent}
    (hcompiled : ext = ".c" ∨ ext = ".cpp" ∨ ext = ".go")
    (h : compileStep ext tempFile fs1 cenv = Except.ok (ep, creOpt, ev0)) :
    ev0 = [SandboxEvent.compileLaunch] := by
  unfold compileStep at h
  simp only [hcompiled, if_true] at h
  rcases hcc : Compiler.Compile tempFile cenv with ⟨res, eff⟩
  rw [hcc] at h
  rcases res with m | cr
  · simp at h
  · by_cases hs : cr.Success = true
    · simp only [hs, if_true, Except.ok.injEq, Prod.mk.injEq] at h
      exact h.2.2.symm
    · simp [hs] at h

theorem executeFile_missing {workDir filePath : String} {fs : FS} {o : ExecOracle}
    (hf : fsGet fs filePath = none) :
    Executor.ExecuteFile workDir filePath fs o =
      ⟨Except.error ("файл не существует: " ++ filePath), fs, [], none⟩ := by
  unfold Executor.ExecuteFile
  rw [hf]
  rfl

theorem executeFile_run_reached {workDir filePath : String} {fs : FS} {o : ExecOracle}
    {ep : String} (h : (Executor.ExecuteFile workDir filePath fs o).ranPath = some ep) :
    ∃ fs1 creOpt ev0,
      Executor.ExecuteFile workDir filePath fs o =
        runStep (execExt filePath) ep fs1 creOpt ev0 o.run ∧
      (ev0 = [] ∨ ev0 = [SandboxEvent.compileLaunch]) := by
  rcases hf : fsGet fs filePath with _ | d
  · rw [executeFile_missing hf] at h
    simp at h
  · rw [executeFile_unfold workDir filePath fs o d hf] at h ⊢
    rcases hcs : compileStep (execExt filePath) (workDir ++ "/" ++ goBase filePath)
        (fsSet fs (workDir ++ "/" ++ goBase filePath)
          (if filePath = workDir ++ "/" ++ goBase filePath then "" else d)) o.compile
      with out | ⟨ep2, creOpt, ev0⟩
    · try rw [hcs] at h
      have h2 : out.ranPath = some ep := h
      rw [(compileStep_error_shape hcs).1] at h2
      exact absurd h2 (by simp)
    · try rw [hcs] at h
      try rw [hcs]
      have h2 : (runStep (execExt filePath) ep2
          (fsSet fs (workDir ++ "/" ++ goBase filePath)
            (if filePath = workDir ++ "/" ++ goBase filePath then "" else d))
          creOpt ev0 o.run).ranPath = some ep := h
      have hep := (runStep_ranPath_some h2).1
      subst hep
      exact ⟨_, creOpt, ev0, rfl, compileStep_ok_shape hcs⟩

theorem executeFile_kill_timeout {workDir filePath : String} {fs : FS} {o : ExecOracle}
    {p : Int} (h : SandboxEvent.kill p ∈ (Executor.ExecuteFile workDir filePath fs o).events) :
    o.run.race = RaceOutcome.timedOut ∧ p = -o.run.pid := by
  rcases hf : fsGet fs filePath with _ | d
  · rw [executeFile_missing hf] at h
    simp at h
  · rw [executeFile_unfold workDir filePath fs o d hf] at h
    rcases hcs : compileStep (execExt filePath) (workDir ++ "/" ++ goBase filePath)
        (fsSet fs (workDir ++ "/" ++ goBase filePath)
          (if filePath = workDir ++ "/" ++ goBase filePath then "" else d)) o.compile
      with out | ⟨ep2, creOpt, ev0⟩
    · try rw [hcs] at h
      have h2 : SandboxEvent.kill p ∈ out.events := h
      rcases (compileStep_error_shape hcs).2 with he | he <;> rw [he] at h2 <;> simp at h2
    · try rw [hcs] at h
      have h2 : SandboxEvent.kill p ∈ (runStep (execExt filePath) ep2
          (fsSet fs (workDir ++ "/" ++ goBase filePath)
            (if filePath = workDir ++ "/" ++ goBase filePath then "" else d))
          creOpt ev0 o.run).events := h
      obtain ⟨t, ht, hkill⟩ :=
        @runStep_events_append (execExt filePath) ep2
          (fsSet fs (workDir ++ "/" ++ goBase filePath)
            (if filePath = workDir ++ "/" ++ goBase filePath then "" else d))
          creOpt ev0 o.run
      rw [ht] at h2
      rcases List.mem_append.mp h2 with hin | hin
      · rcases compileStep_ok_shape hcs with he | he <;> rw [he] at hin <;> simp at hin
      · exact hkill p hin

theorem compile_launched (p : String) (cenv : CompileEnv) :
    (Compiler.Compile p cenv).2.launched =
      (List.lookup (execExt p) compilerConfigs).isSome := by
  rcases hl : List.lookup (execExt p) compilerConfigs with _ | config
  · simp [Compiler.Compile, hl]
  · rcases ho : cenv.outcome with _ | c | m
    · by_cases hn : config.NeedsCompiled = true
      · by_cases ha : cenv.artifactExists = true <;>
          simp [Compiler.Compile, hl, ho, hn, ha]
      · simp [Compiler.Compile, hl, ho, hn]
    · simp [Compiler.Compile, hl, ho]
    · simp [Compiler.Compile, hl, ho]

/-! ### Claim theorems -/

/-- C9: for every staged file whose lower-cased extension is not one of the
six supported ones, `Executor.ExecuteFile` returns the unsupported-file-type
error and its event trace is empty — neither a compiler process nor a user
process is launched; and `Compiler.Compile` likewise rejects such an
extension without launching a compiler. -/
theorem C9_unsupported_extension_no_process :
    (∀ (workDir filePath : String) (fs : FS) (o : ExecOracle) (d : String),
      fsGet fs filePath = some d →
      execExt filePath ∉ ([".py", ".js", ".sh", ".c", ".cpp", ".go"] : List String) →
      (Executor.ExecuteFile workDir filePath fs o).result =
          Except.error ("неподдерживаемый тип файла: " ++ execExt filePath) ∧
        (Executor.ExecuteFile workDir filePath fs o).events = []) ∧
    (∀ (sourcePath : String) (cenv : CompileEnv),
      execExt sourcePath ∉ ([".py", ".js", ".sh", ".c", ".cpp", ".go"] : List String) →
      (Compiler.Compile sourcePath cenv).1 =
          Except.error ("неподдерживаемый тип файла: " ++ execExt sourcePath) ∧
        (Compiler.Compile sourcePath cenv).2.launched = false) := by
  constructor
  · intro workDir filePath fs o d hd hsup
    simp only [List.mem_cons, List.not_mem_nil, or_false, not_or] at hsup
    obtain ⟨h1, h2, h3, h4, h5, h6⟩ := hsup
    have hne : ¬ (execExt filePath = ".c" ∨ execExt filePath = ".cpp" ∨
        execExt filePath = ".go") := by
      simp [h4, h5, h6]
    have hi : interpCmd (execExt filePath) (workDir ++ "/" ++ goBase filePath) = none := by
      simp [interpCmd, h1, h2, h3, h4, h5, h6]
    rw [executeFile_interp workDir filePath fs o d hd hne, runStep_none_interp hi]
    exact ⟨rfl, rfl⟩
  · intro sourcePath cenv hsup
    simp only [List.mem_cons, List.not_mem_nil, or_false, not_or] at hsup
    obtain ⟨h1, h2, h3, h4, h5, h6⟩ := hsup
    have b1 : (execExt sourcePath == ".py") = false := by simpa using h1
    have b2 : (execExt sourcePath == ".js") = false := by simpa using h2
    have b3 : (execExt sourcePath == ".sh") = false := by simpa using h3
    have b4 : (execExt sourcePath == ".c") = false := by simpa using h4
    have b5 : (execExt sourcePath == ".cpp") = false := by simpa using h5
    have b6 : (execExt sourcePath == ".go") = false := by simpa using h6
    have hl : List.lookup (execExt sourcePath) compilerConfigs = none := by
      simp [compilerConfigs, List.lookup, b1, b2, b3, b4, b5, b6]
    constructor
    · simp [Compiler.Compile, hl]
    · rw [compile_launched, hl]
      rfl

/-- Witness for C9: the extension `.xyz` is rejected by both entry points
with no process launched. -/
theorem C9_witness :
    (Executor.ExecuteFile WORK_DIR "/home/user/a.xyz" [("/home/user/a.xyz", "data")]
        ⟨⟨CmdOutcome.ok, "", 0, true⟩, ⟨none, 3, RaceOutcome.done CmdOutcome.ok, "", "", 1⟩⟩).result =
        Except.error ("неподдерживаемый тип файла: " ++ execExt "/home/user/a.xyz") ∧
      (Executor.ExecuteFile WORK_DIR "/home/user/a.xyz" [("/home/user/a.xyz", "data")]
        ⟨⟨CmdOutcome.ok, "", 0, true⟩, ⟨none, 3, RaceOutcome.done CmdOutcome.ok, "", "", 1⟩⟩).events = [] := by
  exact C9_unsupported_extension_no_process.1 WORK_DIR "/home/user/a.xyz"
    [("/home/user/a.xyz", "data")]
    ⟨⟨CmdOutcome.ok, "", 0, true⟩, ⟨none, 3, RaceOutcome.done CmdOutcome.ok, "", "", 1⟩⟩
    "data" (by decide) (by decide)

/-- C10: the extension is lower-cased (`execExt`) before every profile
lookup, so two paths whose extensions agree up to letter case resolve to the
same compiler profile, make the same launch decision in `Compiler.Compile`,
receive the same per-extension timeout, and select the same run command. -/
theorem C10_lowercased_extension_same_profile :
    ∀ p1 p2 : String, execExt p1 = execExt p2 →
      List.lookup (execExt p1) compilerConfigs =
          List.lookup (execExt p2) compilerConfigs ∧
      (∀ cenv, (Compiler.Compile p1 cenv).2.launched =
          (Compiler.Compile p2 cenv).2.launched) ∧
      List.lookup (execExt p1) executorTimeouts =
          List.lookup (execExt p2) executorTimeouts ∧
      (∀ ep, interpCmd (execExt p1) ep = interpCmd (execExt p2) ep) := by
  intro p1 p2 h
  refine ⟨by rw [h], ?_, by rw [h], fun ep => by rw [h]⟩
  intro cenv
  rw [compile_launched, compile_launched, h]

/-- Witness for C10: `.PY` and `.py` paths resolve identically. -/
theorem C10_witness :
    List.lookup (execExt "/home/user/B.PY") compilerConfigs =
        List.lookup (execExt "/home/user/b.py") compilerConfigs ∧
      List.lookup (execExt "/home/user/B.PY") executorTimeouts =
        List.lookup (execExt "/home/user/b.py") executorTimeouts := by
  have h := C10_lowercased_extension_same_profile "/home/user/B.PY" "/home/user/b.py"
    (by decide)
  exact ⟨h.1, h.2.2.1⟩

/-- C6: for a `NeedsCompiled` profile, whenever `Compiler.Compile` reports
success the output artifact existed and was chmod-ed executable (0755); and a
compiler that exits 0 without producing the artifact yields the
artifact-missing failure, not success. -/
theorem C6_artifact_exists_and_executable :
    ∀ (sourcePath : String) (cenv : CompileEnv) (config : CompilerConfig),
      List.lookup (execExt sourcePath) compilerConfigs = some config →
      config.NeedsCompiled = true →
      (∀ cr, (Compiler.Compile sourcePath cenv).1 = Except.ok cr → cr.Success = true →
          cenv.artifactExists = true ∧
          (Compiler.Compile sourcePath cenv).2.chmodded = some cr.OutputFile) ∧
        (cenv.outcome = CmdOutcome.ok → cenv.artifactExists = false →
          (Compiler.Compile sourcePath cenv).1 =
            Except.ok ⟨false, "", "компиляция не создала выходной файл", cenv.compileTime⟩) := by
  intro sourcePath cenv config hl hn
  constructor
  · intro cr hok hsuc
    rcases ho : cenv.outcome with _ | c | m
    · by_cases ha : cenv.artifactExists = true
      · refine ⟨ha, ?_⟩
        simp only [Compiler.Compile, hl, ho, hn, ha, if_true] at hok ⊢
        have : cr = ⟨true, compileOutputFile sourcePath (execExt sourcePath), "", cenv.compileTime⟩ := by
          injection hok.symm
        rw [this]
      · have ha2 : cenv.artifactExists = false := by
          revert ha
          cases cenv.artifactExists <;> simp
        simp only [Compiler.Compile, hl, ho, hn, ha2, if_true, Bool.false_eq_true,
          if_false] at hok
        have : cr = ⟨false, "", "компиляция не создала выходной файл", cenv.compileTime⟩ := by
          injection hok.symm
        rw [this] at hsuc
        simp at hsuc
    · simp only [Compiler.Compile, hl, ho] at hok
      have : cr = ⟨false, "",
          match List.lookup c config.ErrorCodes with
          | some customMsg => customMsg ++ ": " ++ cenv.stderr
          | none => cenv.stderr, cenv.compileTime⟩ := by
        injection hok.symm
      rw [this] at hsuc
      simp at hsuc
    · simp only [Compiler.Compile, hl, ho] at hok
      have : cr = ⟨false, "", "ошибка запуска компилятора: " ++ m, cenv.compileTime⟩ := by
        injection hok.symm
      rw [this] at hsuc
      simp at hsuc
  · intro ho ha
    simp [Compiler.Compile, hl, ho, hn, ha]

/-- Witness for C6: a `.go` compile that exits 0 with the artifact present is
successful and chmod-ed; one whose artifact is absent fails with the
artifact-missing diagnostic. -/
theorem C6_witness :
    (⟨CmdOutcome.ok, "", 3, true⟩ : CompileEnv).artifactExists = true ∧
      (Compiler.Compile "/tmp/smollm-sandbox/m.go" ⟨CmdOutcome.ok, "", 3, true⟩).2.chmodded =
        some "/tmp/smollm-sandbox/m" ∧
      (Compiler.Compile "/tmp/smollm-sandbox/m.go" ⟨CmdOutcome.ok, "", 3, false⟩).1 =
        Except.ok ⟨false, "", "компиляция не создала выходной файл", 3⟩ := by
  have h := C6_artifact_exists_and_executable "/tmp/smollm-sandbox/m.go"
    ⟨CmdOutcome.ok, "", 3, true⟩
    ⟨"go", ["build"], "-o", [(1, "Ошибка компиляции Go")], true⟩ (by decide) rfl
  have h2 := C6_artifact_exists_and_executable "/tmp/smollm-sandbox/m.go"
    ⟨CmdOutcome.ok, "", 3, false⟩
    ⟨"go", ["build"], "-o", [(1, "Ошибка компиляции Go")], true⟩ (by decide) rfl
  obtain ⟨he, hc⟩ := h.1 ⟨true, "/tmp/smollm-sandbox/m", "", 3⟩ (by decide) rfl
  exact ⟨he, hc, h2.2 rfl rfl⟩

/-- C5 counterexample: `Environment.SetResourceLimits` is an Environment
operation that mutates the per-language timeout table after startup — calling
it with `timeoutSeconds = 5` changes the `.py` entry from 30 to 5. -/
theorem C5_counterexample :
    Environment.SetResourceLimits newEnvironmentTimeouts 50 512 5 ≠
        newEnvironmentTimeouts ∧
      List.lookup ".py" (Environment.SetResourceLimits newEnvironmentTimeouts 50 512 5) =
        some 5 ∧
      List.lookup ".py" newEnvironmentTimeouts = some TIMEOUT_SECONDS := by
  exact ⟨by decide, by decide, by decide⟩

/-- C5 (amended): the Compiler's profile table is a fixed constant, but the
Environment's timeout table is mutable: `SetResourceLimits` rewrites every
entry present in the table to the given `timeoutSeconds`. -/
theorem C5_amended_set_resource_limits_overwrites :
    ∀ (tm : List (String × Nat)) (cpuPercent memoryMB timeoutSeconds : Nat)
      (ext : String) (v : Nat),
      List.lookup ext tm = some v →
      List.lookup ext (Environment.SetResourceLimits tm cpuPercent memoryMB timeoutSeconds) =
        some timeoutSeconds := by
  intro tm cpu mem ts ext v h
  unfold Environment.SetResourceLimits
  rw [lookup_map_const, h]
  rfl

/-- Witness for the amended C5: after `SetResourceLimits _ _ 5` the `.py`
timeout reads 5. -/
theorem C5_amended_witness :
    List.lookup ".py" (Environment.SetResourceLimits newEnvironmentTimeouts 50 512 5) =
      some 5 :=
  C5_amended_set_resource_limits_overwrites newEnvironmentTimeouts 50 512 5 ".py"
    TIMEOUT_SECONDS (by decide)

theorem compileStep_compile_failed {ext tempFile : String} {fs1 : FS}
    {cenv : CompileEnv} {cr : CompileResult}
    (hcompiled : ext = ".c" ∨ ext = ".cpp" ∨ ext = ".go")
    (hok : (Compiler.Compile tempFile cenv).1 = Except.ok cr)
    (hfail : cr.Success = false) :
    compileStep ext tempFile fs1 cenv = Except.error
      ⟨Except.ok ⟨false, "", cr.Error, 0, 0, cr.CompileTime, true, ext⟩, fs1,
        [SandboxEvent.compileLaunch], none⟩ := by
  unfold compileStep
  rcases hcc : Compiler.Compile tempFile cenv with ⟨res, eff⟩
  rw [hcc] at hok
  simp only at hok
  subst hok
  simp [hcompiled, hfail]

/-- C7: within one request for a compiled language, a failed compile
short-circuits the run phase: the returned result carries the compiler's
diagnostic text with zero run duration, the only process event is the
compiler launch (no user process); and in every execution of a compiled
language in which a user process is launched, the compiler launch is the
first event of the trace. -/
theorem C7_compile_failure_short_circuits_run :
    (∀ (workDir filePath : String) (fs : FS) (o : ExecOracle) (d : String)
      (cr : CompileResult),
      fsGet fs filePath = some d →
      (execExt filePath = ".c" ∨ execExt filePath = ".cpp" ∨
        execExt filePath = ".go") →
      (Compiler.Compile (workDir ++ "/" ++ goBase filePath) o.compile).1 =
        Except.ok cr →
      cr.Success = false →
      Executor.ExecuteFile workDir filePath fs o =
        ⟨Except.ok ⟨false, "", cr.Error, 0, 0, cr.CompileTime, true, execExt filePath⟩,
          fsSet fs (workDir ++ "/" ++ goBase filePath)
            (if filePath = workDir ++ "/" ++ goBase filePath then "" else d),
          [SandboxEvent.compileLaunch], none⟩) ∧
    (∀ (workDir filePath : String) (fs : FS) (o : ExecOracle),
      (execExt filePath = ".c" ∨ execExt filePath = ".cpp" ∨
        execExt filePath = ".go") →
      SandboxEvent.userLaunch ∈ (Executor.ExecuteFile workDir filePath fs o).events →
      (Executor.ExecuteFile workDir filePath fs o).events.head? =
        some SandboxEvent.compileLaunch) := by
  constructor
  · intro workDir filePath fs o d cr hd hcompiled hok hfail
    rw [executeFile_unfold workDir filePath fs o d hd,
      compileStep_compile_failed hcompiled hok hfail]
  · intro workDir filePath fs o hcompiled h
    rcases hf : fsGet fs filePath with _ | d
    · rw [executeFile_missing hf] at h
      simp at h
    · rw [executeFile_unfold workDir filePath fs o d hf] at h ⊢
      rcases hcs : compileStep (execExt filePath) (workDir ++ "/" ++ goBase filePath)
          (fsSet fs (workDir ++ "/" ++ goBase filePath)
            (if filePath = workDir ++ "/" ++ goBase filePath then "" else d)) o.compile
        with out | ⟨ep2, creOpt, ev0⟩
      · try rw [hcs] at h
        try rw [hcs]
        have h2 : SandboxEvent.kill 0 ∈ out.events ∨ SandboxEvent.userLaunch ∈ out.events :=
          Or.inr h
        rcases (compileStep_error_shape hcs).2 with he | he <;>
          rcases h2 with h2 | h2 <;> rw [he] at h2 <;> simp at h2
      · try rw [hcs] at h
        try rw [hcs]
        have hev0 := compileStep_ok_compiled hcompiled hcs
        subst hev0
        have h2 : ((runStep (execExt filePath) ep2
            (fsSet fs (workDir ++ "/" ++ goBase filePath)
              (if filePath = workDir ++ "/" ++ goBase filePath then "" else d))
            creOpt [SandboxEvent.compileLaunch] o.run).events).head? =
            some SandboxEvent.compileLaunch := by
          obtain ⟨t, ht, _⟩ :=
            @runStep_events_append (execExt filePath) ep2
              (fsSet fs (workDir ++ "/" ++ goBase filePath)
                (if filePath = workDir ++ "/" ++ goBase filePath then "" else d))
              creOpt [SandboxEvent.compileLaunch] o.run
          rw [ht]
          rfl
        exact h2

/-- Witness for C7: a `.c` file whose compiler exits 1 with a diagnostic
yields the short-circuited result: compiler diagnostic, zero run time, only a
compiler launch. -/
theorem C7_witness :
    Executor.ExecuteFile WORK_DIR "/home/user/bad.c"
        [("/home/user/bad.c", "int main((")]
        ⟨⟨CmdOutcome.exitErr 1, "bad.c:1: error", 4, false⟩,
          ⟨none, 3, RaceOutcome.done CmdOutcome.ok, "", "", 1⟩⟩ =
      ⟨Except.ok ⟨false, "", "Ошибка компиляции C: bad.c:1: error", 0, 0, 4, true, ".c"⟩,
        fsSet [("/home/user/bad.c", "int main((")] "/tmp/smollm-sandbox/bad.c"
          "int main((",
        [SandboxEvent.compileLaunch], none⟩ := by
  have h := C7_compile_failure_short_circuits_run.1 WORK_DIR "/home/user/bad.c"
    [("/home/user/bad.c", "int main((")]
    ⟨⟨CmdOutcome.exitErr 1, "bad.c:1: error", 4, false⟩,
      ⟨none, 3, RaceOutcome.done CmdOutcome.ok, "", "", 1⟩⟩
    "int main((" ⟨false, "", "Ошибка компиляции C: bad.c:1: error", 4⟩
    (by decide) (by decide) (by decide) rfl
  rw [h]
  decide

/-- C8: `ExecuteCode` synthesizes the time-stamped temporary source name
`tmp_<timestamp><ext>` in the working directory, delegates to `ExecuteFile`
on that path, deletes the temporary file afterwards whatever the outcome (the
final filesystem no longer contains it), and the name is unique per
timestamp. -/
theorem C8_temp_source_synthesized_and_deleted :
    (∀ (workDir code language : String) (t : Nat) (fs : FS) (o : ExecOracle)
      (ext : String), extForLanguage language = some ext →
      Executor.ExecuteCode workDir code language t fs o =
        ((Executor.ExecuteFile workDir (workDir ++ "/" ++ tmpFileName t ext)
            (fsSet fs (workDir ++ "/" ++ tmpFileName t ext) code) o).result,
          fsErase (Executor.ExecuteFile workDir (workDir ++ "/" ++ tmpFileName t ext)
              (fsSet fs (workDir ++ "/" ++ tmpFileName t ext) code) o).fs
            (workDir ++ "/" ++ tmpFileName t ext))) ∧
    (∀ (workDir code language : String) (t : Nat) (fs : FS) (o : ExecOracle)
      (ext : String), extForLanguage language = some ext →
      fsGet (Executor.ExecuteCode workDir code language t fs o).2
        (workDir ++ "/" ++ tmpFileName t ext) = none) ∧
    (∀ (t1 t2 : Nat) (ext : String),
      tmpFileName t1 ext = tmpFileName t2 ext → t1 = t2) := by
  refine ⟨?_, ?_, fun t1 t2 ext h => tmpFileName_inj h⟩
  · intro workDir code language t fs o ext hl
    unfold Executor.ExecuteCode
    rw [hl]
  · intro workDir code language t fs o ext hl
    unfold Executor.ExecuteCode
    rw [hl]
    exact fsGet_fsErase _ _

/-- Witness for C8: a concrete `ExecuteCode` request leaves no trace of its
temporary source file, and equal names imply equal timestamps. -/
theorem C8_witness :
    fsGet (Executor.ExecuteCode WORK_DIR "print(1)" "python" 3 []
        ⟨⟨CmdOutcome.ok, "", 0, true⟩,
          ⟨none, 4, RaceOutcome.done CmdOutcome.ok, "", "", 1⟩⟩).2
      (WORK_DIR ++ "/" ++ tmpFileName 3 ".py") = none ∧
    (tmpFileName 12 ".py" = tmpFileName 12 ".py" → (12 : Nat) = 12) := by
  exact ⟨C8_temp_source_synthesized_and_deleted.2.1 WORK_DIR "print(1)" "python" 3 []
      ⟨⟨CmdOutcome.ok, "", 0, true⟩, ⟨none, 4, RaceOutcome.done CmdOutcome.ok, "", "", 1⟩⟩
      ".py" (by decide),
    C8_temp_source_synthesized_and_deleted.2.2 12 12 ".py"⟩

/-- C3: when the wall-clock race is lost (timeout), `ExecuteFile` sends
`SIGKILL` to the negated pid — the whole process group — and returns a result
with `Success = false` whose `ExitCode` is left at 0 (no exit code is
fabricated from the killed process); a runtime failure (non-zero exit within
the deadline, output within the cap) instead carries that exit code, which Go
guarantees non-zero, so the two results are never equal. -/
theorem C3_timeout_kills_group_and_is_distinct :
    (∀ (workDir filePath : String) (fs : FS) (o : ExecOracle) (ep : String),
      o.run.startErr = none → o.run.race = RaceOutcome.timedOut →
      (Executor.ExecuteFile workDir filePath fs o).ranPath = some ep →
      SandboxEvent.kill (-o.run.pid) ∈ (Executor.ExecuteFile workDir filePath fs o).events ∧
        ∃ ct cp, (Executor.ExecuteFile workDir filePath fs o).result =
          Except.ok ⟨false, o.run.stdout, o.run.stderr, 0, o.run.executeTime, ct, cp,
            execExt filePath⟩) ∧
    (∀ (workDir filePath : String) (fs : FS) (o : ExecOracle) (ep : String) (c : Int),
      o.run.startErr = none → o.run.race = RaceOutcome.done (CmdOutcome.exitErr c) →
      ¬ o.run.stdout.length > MAX_OUTPUT_SIZE →
      (Executor.ExecuteFile workDir filePath fs o).ranPath = some ep →
      ∃ ct cp, (Executor.ExecuteFile workDir filePath fs o).result =
        Except.ok ⟨false, o.run.stdout, o.run.stderr, c, o.run.executeTime, ct, cp,
          execExt filePath⟩) ∧
    (∀ (r1 r2 : ExecuteResult) (c : Int), c ≠ 0 →
      r1.ExitCode = 0 → r2.ExitCode = c → r1 ≠ r2) := by
  refine ⟨?_, ?_, ?_⟩
  · intro workDir filePath fs o ep hs hr hrp
    obtain ⟨fs1, creOpt, ev0, heq, _⟩ := executeFile_run_reached hrp
    rw [heq] at hrp ⊢
    obtain ⟨_, hiS⟩ := runStep_ranPath_some hrp
    rcases hi : interpCmd (execExt filePath) ep with _ | cmd
    · rw [hi] at hiS
      simp at hiS
    · rw [runStep_timedOut hi hs hr]
      exact ⟨by simp, _, _, rfl⟩
  · intro workDir filePath fs o ep c hs hr hsize hrp
    obtain ⟨fs1, creOpt, ev0, heq, _⟩ := executeFile_run_reached hrp
    rw [heq] at hrp ⊢
    obtain ⟨_, hiS⟩ := runStep_ranPath_some hrp
    rcases hi : interpCmd (execExt filePath) ep with _ | cmd
    · rw [hi] at hiS
      simp at hiS
    · rw [runStep_exitErr hi hs hr hsize]
      exact ⟨_, _, rfl⟩
  · intro r1 r2 c hc h1 h2 hne
    rw [hne] at h1
    rw [h1] at h2
    exact hc h2.symm

/-- Witness for C3: a `.py` run that times out is killed via the negated pid
and reported with exit code 0; a run that exits 3 within the deadline is
reported with exit code 3; the two results differ. -/
theorem C3_witness :
    SandboxEvent.kill (-17) ∈ (Executor.ExecuteFile WORK_DIR "/home/user/loop.py"
        [("/home/user/loop.py", "x")]
        ⟨⟨CmdOutcome.ok, "", 0, true⟩,
          ⟨none, 17, RaceOutcome.timedOut, "partial", "", 30⟩⟩).events ∧
      (⟨false, "partial", "", 0, 30, 0, false, ".py"⟩ : ExecuteResult) ≠
        ⟨false, "", "boom", 3, 1, 0, false, ".py"⟩ := by
  constructor
  · exact (C3_timeout_kills_group_and_is_distinct.1 WORK_DIR "/home/user/loop.py"
      [("/home/user/loop.py", "x")]
      ⟨⟨CmdOutcome.ok, "", 0, true⟩, ⟨none, 17, RaceOutcome.timedOut, "partial", "", 30⟩⟩
      "/tmp/smollm-sandbox/loop.py" rfl rfl (by decide)).1
  · exact C3_timeout_kills_group_and_is_distinct.2.2
      ⟨false, "partial", "", 0, 30, 0, false, ".py"⟩
      ⟨false, "", "boom", 3, 1, 0, false, ".py"⟩ 3 (by decide) rfl rfl

/-! C1: the output-cap inputs. `bigOut` is a stdout one byte above the 1 MiB
cap. -/

/-- A captured stdout of `MAX_OUTPUT_SIZE + 1` bytes. -/
def bigOut : String := String.mk (List.replicate (MAX_OUTPUT_SIZE + 1) 'a')

/-- Filesystem for the C1 inputs. -/
def fsC1 : FS := [("/home/user/a.py", "x")]

/-- Oracle for the C1 inputs: the process wins the race (no timeout), exits 0,
having produced `bigOut` on stdout. -/
def oC1 : ExecOracle :=
  ⟨⟨CmdOutcome.ok, "", 0, true⟩, ⟨none, 9, RaceOutcome.done CmdOutcome.ok, bigOut, "", 5⟩⟩

theorem bigOut_length : bigOut.length = MAX_OUTPUT_SIZE + 1 := by
  simp [bigOut]

theorem c1_input_eval :
    Executor.ExecuteFile WORK_DIR "/home/user/a.py" fsC1 oC1 =
      ⟨Except.ok ⟨false, bigOut, "", 0, 5, 0, false, ".py"⟩,
        fsSet fsC1 "/tmp/smollm-sandbox/a.py" "x",
        [SandboxEvent.userLaunch], some "/tmp/smollm-sandbox/a.py"⟩ := by
  have hgt : oC1.run.stdout.length > MAX_OUTPUT_SIZE := by
    have : oC1.run.stdout = bigOut := rfl
    rw [this, bigOut_length]
    omega
  have hne : ¬ (execExt "/home/user/a.py" = ".c" ∨ execExt "/home/user/a.py" = ".cpp" ∨
      execExt "/home/user/a.py" = ".go") := by decide
  rw [executeFile_interp WORK_DIR "/home/user/a.py" fsC1 oC1 "x" (by decide) hne,
    show WORK_DIR ++ "/" ++ goBase "/home/user/a.py" = "/tmp/smollm-sandbox/a.py" from
      by decide,
    show execExt "/home/user/a.py" = ".py" from by decide,
    runStep_done_oversize
      (show interpCmd ".py" "/tmp/smollm-sandbox/a.py" =
        some ("python3", ["/tmp/smollm-sandbox/a.py"]) from rfl) rfl rfl hgt,
    if_neg (show ¬ "/home/user/a.py" = "/tmp/smollm-sandbox/a.py" from by decide)]
  rfl

/-- C1 counterexample: a process that exits normally after writing
`MAX_OUTPUT_SIZE + 1` bytes of stdout yields an `ExecuteResult` whose
`Output` is the full oversize string — the cap is exceeded in the returned
result — and the event trace contains no kill: the process was never
terminated on account of the cap. -/
theorem C1_counterexample :
    (Executor.ExecuteFile WORK_DIR "/home/user/a.py" fsC1 oC1).result =
        Except.ok ⟨false, bigOut, "", 0, 5, 0, false, ".py"⟩ ∧
      bigOut.length = MAX_OUTPUT_SIZE + 1 ∧
      (Executor.ExecuteFile WORK_DIR "/home/user/a.py" fsC1 oC1).events =
        [SandboxEvent.userLaunch] := by
  rw [c1_input_eval]
  exact ⟨rfl, bigOut_length, rfl⟩

/-- C1 (amended): the cap is only consulted after the race resolves: when a
run that did not time out has captured stdout above `MAX_OUTPUT_SIZE`, the
result is marked failed with `ExitCode` forced to 0 and `Output` still
carrying the entire oversize stdout, and no kill signal is ever sent on
account of the cap. -/
theorem C1_amended_cap_checked_after_exit :
    ∀ (workDir filePath : String) (fs : FS) (o : ExecOracle) (ep : String)
      (rc : CmdOutcome),
      o.run.startErr = none → o.run.race = RaceOutcome.done rc →
      (Executor.ExecuteFile workDir filePath fs o).ranPath = some ep →
      o.run.stdout.length > MAX_OUTPUT_SIZE →
      (∃ ct cp, (Executor.ExecuteFile workDir filePath fs o).result =
          Except.ok ⟨false, o.run.stdout, o.run.stderr, 0, o.run.executeTime, ct, cp,
            execExt filePath⟩) ∧
        ∀ p, SandboxEvent.kill p ∉ (Executor.ExecuteFile workDir filePath fs o).events := by
  intro workDir filePath fs o ep rc hs hr hrp hsize
  constructor
  · obtain ⟨fs1, creOpt, ev0, heq, _⟩ := executeFile_run_reached hrp
    rw [heq] at hrp ⊢
    obtain ⟨_, hiS⟩ := runStep_ranPath_some hrp
    rcases hi : interpCmd (execExt filePath) ep with _ | cmd
    · rw [hi] at hiS
      simp at hiS
    · rw [runStep_done_oversize hi hs hr hsize]
      exact ⟨_, _, rfl⟩
  · intro p hp
    have hto := (executeFile_kill_timeout hp).1
    rw [hr] at hto
    simp at hto

/-- Witness for the amended C1: at the concrete oversize input the result is
an `ok` (captured, not escalated) and no kill to the process group of pid 9
appears in the trace. -/
theorem C1_amended_witness :
    (Executor.ExecuteFile WORK_DIR "/home/user/a.py" fsC1 oC1).result.isOk = true ∧
      SandboxEvent.kill (-9) ∉
        (Executor.ExecuteFile WORK_DIR "/home/user/a.py" fsC1 oC1).events := by
  have hgt : oC1.run.stdout.length > MAX_OUTPUT_SIZE := by
    have : oC1.run.stdout = bigOut := rfl
    rw [this, bigOut_length]
    omega
  obtain ⟨⟨ct, cp, hres⟩, hkill⟩ := C1_amended_cap_checked_after_exit WORK_DIR
    "/home/user/a.py" fsC1 oC1 "/tmp/smollm-sandbox/a.py" CmdOutcome.ok rfl rfl
    (by rw [c1_input_eval]) hgt
  exact ⟨by rw [hres]; rfl, hkill (-9)⟩

/-- C2 counterexample: through the execution path actually used by requests
(`ExecuteFile` → `Compiler.Compile`), a `.go` compile lasting 100000 seconds —
far beyond the 60-second budget the spec names — completes normally: the
result is a success carrying `CompileTime = 100000`, and the trace contains a
compiler launch and a user launch but no kill. -/
theorem C2_counterexample :
    (Executor.ExecuteFile WORK_DIR "/home/user/m.go" [("/home/user/m.go", "package main")]
        ⟨⟨CmdOutcome.ok, "", 100000, true⟩,
          ⟨none, 5, RaceOutcome.done CmdOutcome.ok, "ok", "", 2⟩⟩).result =
        Except.ok ⟨true, "ok", "", 0, 2, 100000, true, ".go"⟩ ∧
      (Executor.ExecuteFile WORK_DIR "/home/user/m.go" [("/home/user/m.go", "package main")]
        ⟨⟨CmdOutcome.ok, "", 100000, true⟩,
          ⟨none, 5, RaceOutcome.done CmdOutcome.ok, "ok", "", 2⟩⟩).events =
        [SandboxEvent.compileLaunch, SandboxEvent.userLaunch] ∧
      (100000 : Nat) > TIMEOUT_SECONDS * 2 := by
  exact ⟨by decide, by decide, by decide⟩

/-- C2 (amended): the compile step reached from `ExecuteFile` never kills
anything (the only kill the Executor ever issues comes from the run-phase
timeout); the compile-specific timeout — double the run budget for the
compiled languages — exists only in `Environment.compile`, which the
execution path does not invoke: there, on timeout, the compiler process is
killed and a timeout-reason compile error is returned. -/
theorem C2_amended_no_compile_timeout_on_exec_path :
    (∀ (workDir filePath : String) (fs : FS) (o : ExecOracle) (p : Int),
      SandboxEvent.kill p ∈ (Executor.ExecuteFile workDir filePath fs o).events →
      o.run.race = RaceOutcome.timedOut) ∧
    (∀ (tmts : List (String × Nat)) (filename : String) (config : CompilerConfig)
      (pid : Int) (stderrText : String) (v : Nat),
      List.lookup (goExt filename) tmts = some v →
      Environment.compile tmts filename config pid RaceOutcome.timedOut stderrText =
        (Except.error ("превышено время компиляции (" ++ Nat.repr v ++ " секунд)"),
          [SandboxEvent.compileLaunch, SandboxEvent.kill pid])) ∧
    List.lookup ".go" newEnvironmentTimeouts = some (TIMEOUT_SECONDS * 2) ∧
    List.lookup ".c" newEnvironmentTimeouts = some (TIMEOUT_SECONDS * 2) ∧
    List.lookup ".cpp" newEnvironmentTimeouts = some (TIMEOUT_SECONDS * 2) := by
  refine ⟨?_, ?_, by decide, by decide, by decide⟩
  · intro workDir filePath fs o p h
    exact (executeFile_kill_timeout h).1
  · intro tmts filename config pid stderrText v h
    simp [Environment.compile, h]

/-- Witness for the amended C2: a timed-out run produces a kill (race was the
timeout), and `Environment.compile` of a `.go` file under the Environment's
own table kills the compiler and reports the 60-second compile timeout. -/
theorem C2_amended_witness :
    (⟨⟨CmdOutcome.ok, "", 0, true⟩,
        ⟨none, 6, RaceOutcome.timedOut, "", "", 30⟩⟩ : ExecOracle).run.race =
      RaceOutcome.timedOut ∧
    Environment.compile newEnvironmentTimeouts "/home/user/m.go"
        ⟨"go", ["build"], "-o", [(1, "Ошибка компиляции Go")], true⟩ 8
        RaceOutcome.timedOut "" =
      (Except.error ("превышено время компиляции (" ++ Nat.repr 60 ++ " секунд)"),
        [SandboxEvent.compileLaunch, SandboxEvent.kill 8]) := by
  constructor
  · exact C2_amended_no_compile_timeout_on_exec_path.1 WORK_DIR "/home/user/loop.py"
      [("/home/user/loop.py", "x")]
      ⟨⟨CmdOutcome.ok, "", 0, true⟩, ⟨none, 6, RaceOutcome.timedOut, "", "", 30⟩⟩
      (-6) (by decide)
  · exact C2_amended_no_compile_timeout_on_exec_path.2.1 newEnvironmentTimeouts
      "/home/user/m.go" ⟨"go", ["build"], "-o", [(1, "Ошибка компиляции Go")], true⟩ 8 ""
      60 (by decide)

/-- C4 (bug evidence): `ExecuteCode` writes the submitted code to
`workDir/tmp_<t><ext>` and `ExecuteFile` then copies that very path onto
itself (`filepath.Base` of a path already inside the working directory);
`os.Create` truncates the file before `io.Copy` reads it, so the staged copy
the interpreter runs is empty — not byte-identical to the submitted code. -/
theorem C4_staged_copy_truncated_to_empty :
    extForLanguage "python" = some ".py" ∧
      WORK_DIR ++ "/" ++ tmpFileName 7 ".py" = "/tmp/smollm-sandbox/tmp_7.py" ∧
      (Executor.ExecuteFile WORK_DIR "/tmp/smollm-sandbox/tmp_7.py"
          (fsSet [] "/tmp/smollm-sandbox/tmp_7.py" "print(1)")
          ⟨⟨CmdOutcome.ok, "", 0, true⟩,
            ⟨none, 11, RaceOutcome.done CmdOutcome.ok, "", "", 1⟩⟩).ranPath =
        some "/tmp/smollm-sandbox/tmp_7.py" ∧
      fsGet (Executor.ExecuteFile WORK_DIR "/tmp/smollm-sandbox/tmp_7.py"
          (fsSet [] "/tmp/smollm-sandbox/tmp_7.py" "print(1)")
          ⟨⟨CmdOutcome.ok, "", 0, true⟩,
            ⟨none, 11, RaceOutcome.done CmdOutcome.ok, "", "", 1⟩⟩).fs
        "/tmp/smollm-sandbox/tmp_7.py" = some "" ∧
      ("" : String) ≠ "print(1)" := by
  exact ⟨by decide, by decide, by decide, by decide, by decide⟩

end SmolLM
